import Mathlib

/-!
Verification development for the ChemAssistant molecule editor.

The repository is a TypeScript/React application.  This file gives a shallow
embedding of its core data model and pure logic:

* the graph data model (`types.ts`): atoms, bonds, molecules;
* the element colour table `ELEMENT_COLORS` and the builder operations
  `addAtom`, `handleAtomDelete`, `handleBondDelete` (`constants.ts`);
* the bond-creation / order-cycling click handler `handleAtomClick` of
  `MoleculeRenderer` (the version with bond-order cycling, in which the
  pending selection is kept after a bond edit);
* the product-graph sanitization inside `simulateReaction` and the
  identification fallback of `identifyMolecule` (gemini service);
* the batch layout `autoLayoutMolecule` (layout service) and the live
  simulation tick of `MoleculeRenderer`.

Numbers: canvas coordinates are embedded as rationals; bond orders as
integers (the TS annotation says 1|2|3 but sanitization can produce any
integer, see `coerceOrder`).  The d3 force simulation is third-party code,
not part of this repository; where a repository function consumes its
output (final node positions), that output is modelled as an uninterpreted
assignment of a position to each node index, universally quantified in the
theorems.  Id generation with `Date.now()` is modelled by passing the
generated id as an explicit argument.
-/

namespace ChemAssistant

/-- The 15-member element enum from `types.ts`. -/
inductive ElementType
  | H | C | O | N | Cl | Na | S | F | P | Mg | K | Ca | Fe | Br | I
deriving DecidableEq, Repr

/-- The string symbols of the 15 known elements, in enum order
(`Object.values(ElementType)`). -/
def knownElements : List String :=
  ["H", "C", "O", "N", "Cl", "Na", "S", "F", "P", "Mg", "K", "Ca", "Fe", "Br", "I"]

/-- `AtomData` from `types.ts`.  The element is kept as a raw string because
the sanitization code casts arbitrary strings into the field without
validation. -/
structure AtomData where
  id : String
  element : String
  x : ℚ
  y : ℚ
deriving DecidableEq, Repr

/-- `BondData` from `types.ts`.  The TS type annotation restricts `order` to
1|2|3 but the sanitization code can store any integer, so the embedding uses
ℤ. -/
structure BondData where
  id : String
  sourceAtomId : String
  targetAtomId : String
  order : ℤ
deriving DecidableEq, Repr

/-- `Molecule` from `types.ts` (the optional formula field is not used by any
of the verified operations and is omitted). -/
structure Molecule where
  id : String
  name : String
  atoms : List AtomData
  bonds : List BondData
deriving DecidableEq, Repr

/-- The per-element render style stored in `ELEMENT_COLORS` (`constants.ts`). -/
structure ColorStyle where
  bg : String
  border : String
  text : String
  radius : ℚ
deriving DecidableEq, Repr

/-- The `ELEMENT_COLORS` record literal of `constants.ts`.  Despite its
`Record<ElementType, ...>` annotation the literal only provides the first
eight elements; a lookup of any of the remaining seven yields `undefined`,
embedded here as `none`. -/
def ELEMENT_COLORS : ElementType → Option ColorStyle
  | .H  => some ⟨"#FFFFFF", "#94a3b8", "#334155", 20⟩
  | .C  => some ⟨"#334155", "#1e293b", "#FFFFFF", 25⟩
  | .O  => some ⟨"#ef4444", "#b91c1c", "#FFFFFF", 24⟩
  | .N  => some ⟨"#3b82f6", "#1d4ed8", "#FFFFFF", 24⟩
  | .Cl => some ⟨"#22c55e", "#15803d", "#FFFFFF", 26⟩
  | .Na => some ⟨"#a855f7", "#7e22ce", "#FFFFFF", 28⟩
  | .S  => some ⟨"#eab308", "#a16207", "#FFFFFF", 26⟩
  | .F  => some ⟨"#14b8a6", "#0f766e", "#FFFFFF", 22⟩
  | _   => none

/-! ## GraphModel operations (Builder in `constants.ts`) -/

/-- `addAtom` of the Builder: appends a fresh atom.  The generated id
(`atom-Date.now()`) and the jittered centre position are passed as
arguments. -/
def addAtom (m : Molecule) (element freshId : String) (x y : ℚ) : Molecule :=
  { m with atoms := m.atoms ++ [⟨freshId, element, x, y⟩] }

/-- `handleAtomDelete` of the Builder: removes the atom and every bond
referencing it. -/
def handleAtomDelete (m : Molecule) (atomId : String) : Molecule :=
  { m with
      atoms := m.atoms.filter (fun a => a.id != atomId),
      bonds := m.bonds.filter
        (fun b => b.sourceAtomId != atomId && b.targetAtomId != atomId) }

/-- `handleBondDelete` of the Builder: removes the bond with the given id. -/
def handleBondDelete (m : Molecule) (bondId : String) : Molecule :=
  { m with bonds := m.bonds.filter (fun b => b.id != bondId) }

/-- The `findIndex` predicate used by `handleAtomClick`: does this bond link
the pair (selected, clicked) in either direction? -/
def bondLinks (sel clicked : String) (b : BondData) : Bool :=
  (b.sourceAtomId == sel && b.targetAtomId == clicked) ||
    (b.targetAtomId == sel && b.sourceAtomId == clicked)

/-- The cyclic rule `order === 1 ? 2 : (order === 2 ? 3 : 1)`. -/
def cycleOrder (o : ℤ) : ℤ :=
  if o = 1 then 2 else if o = 2 then 3 else 1

/-- Replace a bond by the same bond with its order advanced. -/
def cycleBond (b : BondData) : BondData :=
  { b with order := cycleOrder b.order }

/-- Advance the order of the first bond matching `bondLinks sel clicked`,
leaving all other bonds untouched.  This is the `findIndex` + update-at-index
step of `handleAtomClick` written as a recursion over the bond list. -/
def cycleFirst (sel clicked : String) : List BondData → List BondData
  | [] => []
  | b :: rest =>
      if bondLinks sel clicked b then cycleBond b :: rest
      else b :: cycleFirst sel clicked rest

/-- The graph effect of a build-mode click on `clicked` while `sel` is the
pending bond source (`handleAtomClick`, build branch with a distinct
selection): cycle the first existing bond between the pair, or append a new
order-1 bond with the freshly generated id (`bond-Date.now()`). -/
def addOrCycleBond (m : Molecule) (sel clicked freshBondId : String) : Molecule :=
  if m.bonds.any (bondLinks sel clicked) then
    { m with bonds := cycleFirst sel clicked m.bonds }
  else
    { m with bonds := m.bonds ++ [⟨freshBondId, sel, clicked, 1⟩] }

/-- The interaction state owned by the renderer that click handling consults:
the molecule plus the pending bond source (`selectedAtomId`). -/
structure BuilderState where
  molecule : Molecule
  selectedAtomId : Option String
deriving DecidableEq, Repr

/-- `handleAtomClick` of `MoleculeRenderer` (build mode, click not suppressed
as a drag): with a pending selection different from the clicked atom the bond
is created or cycled and the selection is kept; clicking the selected atom
deselects; clicking with no selection selects. -/
def handleAtomClickBuild (s : BuilderState) (atomId freshBondId : String) :
    BuilderState :=
  match s.selectedAtomId with
  | some sel =>
      if sel ≠ atomId then
        { s with molecule := addOrCycleBond s.molecule sel atomId freshBondId }
      else
        { s with selectedAtomId := none }
  | none => { s with selectedAtomId := some atomId }

/-- The graph operations reachable from the builder UI: adding an atom from
the palette, clicking an atom in build mode, clicking an atom in erase mode
(`handleAtomDelete`), clicking a bond in erase mode (`handleBondDelete`).
Generated ids are carried as data. -/
inductive Op
  | add (element freshId : String) (x y : ℚ)
  | click (atomId freshBondId : String)
  | eraseAtom (atomId : String)
  | eraseBond (bondId : String)
deriving DecidableEq, Repr

/-- Apply one builder operation to the interaction state. -/
def applyOp (s : BuilderState) : Op → BuilderState
  | .add el id x y => { s with molecule := addAtom s.molecule el id x y }
  | .click a fresh => handleAtomClickBuild s a fresh
  | .eraseAtom id => { s with molecule := handleAtomDelete s.molecule id }
  | .eraseBond id => { s with molecule := handleBondDelete s.molecule id }

/-- Run a sequence of builder operations. -/
def run (s : BuilderState) (ops : List Op) : BuilderState :=
  ops.foldl applyOp s

/-- The empty molecule the builder starts from, with no pending selection. -/
def initState : BuilderState :=
  ⟨⟨"temp-builder", "New Molecule", [], []⟩, none⟩

/-- Some atom of the molecule carries this id. -/
def hasAtom (m : Molecule) (id : String) : Prop :=
  ∃ a ∈ m.atoms, a.id = id

instance (m : Molecule) (id : String) : Decidable (hasAtom m id) := by
  unfold hasAtom; infer_instance

/-- Executable version of `hasAtom`. -/
def hasAtomB (m : Molecule) (id : String) : Bool :=
  m.atoms.any (fun a => a.id == id)

/-- The structural invariant of the data model (§3 of the spec): every bond
endpoint names a present atom, and atom ids and bond ids are duplicate
free. -/
def Wf (m : Molecule) : Prop :=
  (∀ b ∈ m.bonds, hasAtom m b.sourceAtomId ∧ hasAtom m b.targetAtomId) ∧
    (m.atoms.map (fun a => a.id)).Nodup ∧
    (m.bonds.map (fun b => b.id)).Nodup

instance (m : Molecule) : Decidable (Wf m) := by
  unfold Wf; infer_instance

/-- Environment assumptions for one operation: ids generated by `Date.now()`
are fresh, clicks land on rendered (present) atoms, and a bond-creating or
cycling click happens while the pending source atom is still present. -/
def opOk (s : BuilderState) : Op → Bool
  | .add _ id _ _ => s.molecule.atoms.all (fun a => a.id != id)
  | .click b fresh =>
      hasAtomB s.molecule b &&
        (match s.selectedAtomId with
         | some a =>
             a == b ||
               (hasAtomB s.molecule a &&
                 s.molecule.bonds.all (fun bd => bd.id != fresh))
         | none => true)
  | .eraseAtom _ => true
  | .eraseBond _ => true

/-- A sequence of operations each of which satisfies `opOk` in the state it
runs in. -/
def validSeq : BuilderState → List Op → Bool
  | _, [] => true
  | s, op :: ops => opOk s op && validSeq (applyOp s op) ops

/-- The weaker condition that every click (build or erase) targets an atom
present at the moment of the click; this is guaranteed by the UI, which only
delivers clicks on rendered atoms. -/
def clicksPresent : BuilderState → List Op → Bool
  | _, [] => true
  | s, op :: ops =>
      (match op with
       | .click b _ => hasAtomB s.molecule b
       | .eraseAtom a => hasAtomB s.molecule a
       | _ => true) && clicksPresent (applyOp s op) ops

/-! ## Sanitization of externally supplied product graphs
(`simulateReaction` in the gemini service) -/

/-- An atom of the raw AI response (`GeminiAtom` in `types.ts`). -/
structure GeminiAtom where
  id : String
  element : String
deriving DecidableEq, Repr

/-- A bond of the raw AI response (`GeminiBond`).  The `order` field may be
absent from the JSON payload, hence `Option`. -/
structure GeminiBond where
  source : String
  target : String
  order : Option ℤ
deriving DecidableEq, Repr

/-- One product of the raw AI response (`GeminiMolecule` / `ProductGraph`). -/
structure ProductGraph where
  name : String
  atoms : List GeminiAtom
  bonds : List GeminiBond
deriving DecidableEq, Repr

/-- JS `b.order || 1`: a missing order and the falsy integer 0 become 1,
every other integer (valid or not) is kept. -/
def coerceOrder : Option ℤ → ℤ
  | none => 1
  | some k => if k = 0 then 1 else k

/-- Membership test on a list of ids (the `Set.has` of the source). -/
def memB (x : String) (l : List String) : Bool :=
  l.any (fun y => y == x)

/-- `validBonds.map((b, bIndex) => ...)`: number the retained bonds, give each
the internal id `bond-<index>-<bIndex>` and the coerced order. -/
def numberBonds (index : ℕ) : ℕ → List GeminiBond → List BondData
  | _, [] => []
  | i, b :: rest =>
      ⟨"bond-" ++ toString index ++ "-" ++ toString i,
        b.source, b.target, coerceOrder b.order⟩ :: numberBonds index (i + 1) rest

/-- The sanitization step of `simulateReaction` for the product at position
`index` of the response (`now` stands for the `Date.now()` suffix of the
molecule id): keep atoms with truthy (non-empty) id and element, keep bonds
whose endpoints are both retained, coerce falsy orders to 1, place every atom
at (0,0) for the subsequent layout pass. -/
def sanitizeProduct (p : ProductGraph) (index : ℕ) (now : String) : Molecule :=
  let validAtoms := p.atoms.filter (fun a => a.id != "" && a.element != "")
  let atomIds := validAtoms.map (fun a => a.id)
  let validBonds := p.bonds.filter
    (fun b => memB b.source atomIds && memB b.target atomIds)
  { id := "product-" ++ toString index ++ "-" ++ now,
    name := if p.name = "" then "Product" else p.name,
    atoms := validAtoms.map (fun a => ⟨a.id, a.element, 0, 0⟩),
    bonds := numberBonds index 0 validBonds }

/-! ## Layout (`autoLayoutMolecule` in the layout service, and the live
simulation tick of `MoleculeRenderer`) -/

/-- `Math.max(lo, Math.min(hi, v))`. -/
def clamp (lo hi v : ℚ) : ℚ :=
  max lo (min hi v)

/-- The final mapping of `autoLayoutMolecule` over the simulated nodes: keep
id and element, clamp the post-simulation position (given by the
uninterpreted per-index assignment `simX`/`simY`) into the margin box. -/
def layoutAtoms (width height : ℚ) (simX simY : ℕ → ℚ) :
    ℕ → List AtomData → List AtomData
  | _, [] => []
  | i, a :: rest =>
      { a with
          x := clamp 30 (width - 30) (simX i),
          y := clamp 30 (height - 30) (simY i) } ::
        layoutAtoms width height simX simY (i + 1) rest

/-- `autoLayoutMolecule` (layout service): an empty molecule is returned
unchanged; otherwise the d3 force simulation runs 300 synchronous ticks
(third-party code, modelled by the uninterpreted node positions
`simX`/`simY`), the final coordinates are clamped to the margin box and the
bond list is passed through untouched. -/
def autoLayoutMolecule (m : Molecule) (width height : ℚ) (simX simY : ℕ → ℚ) :
    Molecule :=
  if m.atoms.length = 0 then m
  else
    { m with
        atoms := layoutAtoms width height simX simY 0 m.atoms,
        bonds := m.bonds }

/-- The atom rebuild performed by the live-mode tick handler: id and element
are taken from the simulated copy of the props atoms, the position from the
simulation state. -/
def tickAtoms (pos : ℕ → ℚ × ℚ) : ℕ → List AtomData → List AtomData
  | _, [] => []
  | i, a :: rest =>
      ⟨a.id, a.element, (pos i).1, (pos i).2⟩ :: tickAtoms pos (i + 1) rest

/-- One live-mode simulation tick (`simulation.on("tick")` in
`MoleculeRenderer`): the previous internal molecule keeps its bonds, the
atoms are rebuilt from the simulated copies of the props atoms. -/
def liveTick (prev : Molecule) (propsAtoms : List AtomData)
    (pos : ℕ → ℚ × ℚ) : Molecule :=
  { prev with atoms := tickAtoms pos 0 propsAtoms }

/-! ## Identification (`identifyMolecule` in the gemini service) -/

/-- One step of the JS count accumulation
`counts[a.element] = (counts[a.element] || 0) + 1`; a new element is appended
because JS object string keys keep insertion order. -/
def addCount (acc : List (String × ℕ)) (el : String) : List (String × ℕ) :=
  if acc.any (fun p => p.1 == el) then
    acc.map (fun p => if p.1 == el then (p.1, p.2 + 1) else p)
  else
    acc ++ [(el, 1)]

/-- The element counts of a molecule in first-occurrence order. -/
def elementCounts (atoms : List AtomData) : List (String × ℕ) :=
  atoms.foldl (fun acc a => addCount acc a.element) []

/-- The locally computed chemical formula:
`Object.entries(counts).map(([el, count]) => el + (count > 1 ? count : '')).join('')`. -/
def formulaOf (m : Molecule) : String :=
  (elementCounts m.atoms).foldl
    (fun s p => s ++ p.1 ++ (if 1 < p.2 then toString p.2 else "")) ""

/-- The outcome of the identification collaborator call: the request can
throw, or succeed with `response.text` possibly `undefined`. -/
inductive CollabResult
  | failure
  | success (text : Option String)
deriving DecidableEq, Repr

/-- `identifyMolecule`: on failure return the formula; otherwise trim the
response text; if it is missing, empty, or longer than 50 characters return
the formula, else the trimmed name. -/
def identifyMolecule (m : Molecule) (r : CollabResult) : String :=
  match r with
  | .failure => formulaOf m
  | .success none => formulaOf m
  | .success (some t) =>
      let name := t.trim
      if name = "" ∨ 50 < name.length then formulaOf m else name

/-! ## Spec-side definition for the refinement comparison -/

/-- Modelled from the spec: the §3 data-model conditions claim C3 asserts of
a sanitized product — every retained element is a known symbol, every order
lies in {1,2,3}, atom ids are pairwise distinct, and no bond is a self-loop.
This follows the claim wording, to be compared against `sanitizeProduct`. -/
def SpecSanitized (m : Molecule) : Prop :=
  (∀ a ∈ m.atoms, a.element ∈ knownElements) ∧
    (∀ b ∈ m.bonds, b.order = 1 ∨ b.order = 2 ∨ b.order = 3) ∧
    (m.atoms.map (fun a => a.id)).Nodup ∧
    (∀ b ∈ m.bonds, b.sourceAtomId ≠ b.targetAtomId)

instance (m : Molecule) : Decidable (SpecSanitized m) := by
  unfold SpecSanitized; infer_instance

/-! ## Concrete fixtures used by witnesses and counterexamples -/

/-- Bonds of later molecules filtered to the pair (a, b). -/
def bondsBetween (m : Molecule) (a b : String) : List BondData :=
  m.bonds.filter (bondLinks a b)

/-- A raw product whose atoms carry an unknown element symbol and a duplicated
id, and whose single bond is a self-loop with order 7. -/
def badProduct : ProductGraph :=
  ⟨"X", [⟨"1", "Zz"⟩, ⟨"1", "H"⟩], [⟨"1", "1", some 7⟩]⟩

/-- The sanitized form of `badProduct`. -/
def badSanitized : Molecule :=
  sanitizeProduct badProduct 0 "t0"

/-- A single-atom molecule for the layout counterexample. -/
def tinyMolecule : Molecule :=
  ⟨"m1", "M", [⟨"a1", "H", 5, 5⟩], []⟩

/-- Water drawn with the oxygen first, as in the §8 scenario. -/
def waterMolecule : Molecule :=
  ⟨"m2", "Water",
    [⟨"o1", "O", 0, 0⟩, ⟨"h1", "H", 0, 0⟩, ⟨"h2", "H", 0, 0⟩],
    [⟨"b1", "o1", "h1", 1⟩, ⟨"b2", "o1", "h2", 1⟩]⟩

/-- A three-atom chain A-B-C with two bonds through B. -/
def chainMolecule : Molecule :=
  ⟨"m3", "Chain",
    [⟨"A", "C", 0, 0⟩, ⟨"B", "C", 10, 0⟩, ⟨"D", "C", 20, 0⟩],
    [⟨"b1", "A", "B", 1⟩, ⟨"b2", "B", "D", 1⟩]⟩

/-- Two bare atoms with no bond, the starting point of the cycling scenario. -/
def twoAtomMolecule : Molecule :=
  ⟨"m4", "Pair", [⟨"x", "C", 0, 0⟩, ⟨"y", "O", 10, 0⟩], []⟩

/-- A builder trace that only uses the four graph operations, every click
landing on a rendered atom: add two atoms, select the first, erase it while
it is still the pending bond source, then click the second atom.  The final
click appends a bond whose source atom is gone. -/
def breakingOps : List Op :=
  [Op.add "H" "a1" 0 0, Op.add "O" "a2" 0 0,
   Op.click "a1" "bX", Op.eraseAtom "a1", Op.click "a2" "b1"]

/-- A well-behaved builder trace: add two atoms, select one, bond it to the
other. -/
def goodOps : List Op :=
  [Op.add "H" "a1" 0 0, Op.add "O" "a2" 0 0,
   Op.click "a1" "bX", Op.click "a2" "b1"]

/-- The two-atom molecule with the first atom armed as pending bond source. -/
def pairState : BuilderState :=
  ⟨twoAtomMolecule, some "x"⟩

/-! ## Helper lemmas -/

lemma hasAtomB_iff {m : Molecule} {i : String} :
    hasAtomB m i = true ↔ hasAtom m i := by
  simp [hasAtomB, hasAtom]

lemma memB_iff {x : String} {l : List String} : memB x l = true ↔ x ∈ l := by
  simp [memB]

lemma clamp_bounds {lo hi : ℚ} (h : lo ≤ hi) (v : ℚ) :
    lo ≤ clamp lo hi v ∧ clamp lo hi v ≤ hi :=
  ⟨le_max_left _ _, max_le h (min_le_left _ _)⟩

lemma layoutAtoms_map_id (w h : ℚ) (sx sy : ℕ → ℚ) :
    ∀ (i : ℕ) (l : List AtomData),
      (layoutAtoms w h sx sy i l).map (fun a => a.id) = l.map (fun a => a.id) := by
  intro i l
  induction l generalizing i with
  | nil => rfl
  | cons a rest ih => simp [layoutAtoms, ih]

lemma layoutAtoms_map_element (w h : ℚ) (sx sy : ℕ → ℚ) :
    ∀ (i : ℕ) (l : List AtomData),
      (layoutAtoms w h sx sy i l).map (fun a => a.element)
        = l.map (fun a => a.element) := by
  intro i l
  induction l generalizing i with
  | nil => rfl
  | cons a rest ih => simp [layoutAtoms, ih]

lemma layoutAtoms_bounds {w h : ℚ} (hw : (60 : ℚ) ≤ w) (hh : (60 : ℚ) ≤ h)
    (sx sy : ℕ → ℚ) :
    ∀ (i : ℕ) (l : List AtomData), ∀ a ∈ layoutAtoms w h sx sy i l,
      30 ≤ a.x ∧ a.x ≤ w - 30 ∧ 30 ≤ a.y ∧ a.y ≤ h - 30 := by
  have hx : (30 : ℚ) ≤ w - 30 := by linarith
  have hy : (30 : ℚ) ≤ h - 30 := by linarith
  intro i l
  induction l generalizing i with
  | nil => intro a ha; cases ha
  | cons b rest ih =>
      intro a ha
      rcases List.mem_cons.mp ha with h1 | h2
      · subst h1
        exact ⟨(clamp_bounds hx _).1, (clamp_bounds hx _).2,
          (clamp_bounds hy _).1, (clamp_bounds hy _).2⟩
      · exact ih (i + 1) a h2

lemma tickAtoms_map_id (pos : ℕ → ℚ × ℚ) :
    ∀ (i : ℕ) (l : List AtomData),
      (tickAtoms pos i l).map (fun a => a.id) = l.map (fun a => a.id) := by
  intro i l
  induction l generalizing i with
  | nil => rfl
  | cons a rest ih => simp [tickAtoms, ih]

lemma tickAtoms_map_element (pos : ℕ → ℚ × ℚ) :
    ∀ (i : ℕ) (l : List AtomData),
      (tickAtoms pos i l).map (fun a => a.element) = l.map (fun a => a.element) := by
  intro i l
  induction l generalizing i with
  | nil => rfl
  | cons a rest ih => simp [tickAtoms, ih]

lemma numberBonds_mem (index : ℕ) :
    ∀ (i : ℕ) (l : List GeminiBond), ∀ b ∈ numberBonds index i l,
      ∃ gb ∈ l, b.sourceAtomId = gb.source ∧ b.targetAtomId = gb.target ∧
        b.order = coerceOrder gb.order := by
  intro i l
  induction l generalizing i with
  | nil => intro b hb; cases hb
  | cons g rest ih =>
      intro b hb
      rcases List.mem_cons.mp hb with h1 | h2
      · exact ⟨g, List.mem_cons_self g rest, by subst h1; exact ⟨rfl, rfl, rfl⟩⟩
      · obtain ⟨gb, hgb, hprops⟩ := ih (i + 1) b h2
        exact ⟨gb, List.mem_cons_of_mem g hgb, hprops⟩

lemma numberBonds_length (index : ℕ) :
    ∀ (i : ℕ) (l : List GeminiBond), (numberBonds index i l).length = l.length := by
  intro i l
  induction l generalizing i with
  | nil => rfl
  | cons g rest ih => simp [numberBonds, ih]

lemma sanitize_atoms_map_id (p : ProductGraph) (index : ℕ) (now : String) :
    (sanitizeProduct p index now).atoms.map (fun a => a.id)
      = (p.atoms.filter (fun a => a.id != "" && a.element != "")).map
          (fun a => a.id) := by
  simp [sanitizeProduct, List.map_map, Function.comp]

lemma sanitize_bonds_closed (p : ProductGraph) (index : ℕ) (now : String) :
    ∀ b ∈ (sanitizeProduct p index now).bonds,
      b.sourceAtomId ∈ (sanitizeProduct p index now).atoms.map (fun a => a.id) ∧
        b.targetAtomId ∈ (sanitizeProduct p index now).atoms.map (fun a => a.id) := by
  intro b hb
  rw [sanitize_atoms_map_id]
  have hb2 : b ∈ numberBonds index 0 (p.bonds.filter
      (fun gb => memB gb.source ((p.atoms.filter
          (fun a => a.id != "" && a.element != "")).map (fun a => a.id)) &&
        memB gb.target ((p.atoms.filter
          (fun a => a.id != "" && a.element != "")).map (fun a => a.id)))) := hb
  obtain ⟨gb, hgb, hs, ht, _⟩ := numberBonds_mem index 0 _ b hb2
  have hcond := (List.mem_filter.mp hgb).2
  rw [Bool.and_eq_true] at hcond
  obtain ⟨h1, h2⟩ := hcond
  exact ⟨hs ▸ memB_iff.mp h1, ht ▸ memB_iff.mp h2⟩

lemma length_filter_split {α : Type} (p : α → Bool) (l : List α) :
    (l.filter p).length + (l.filter (fun x => !(p x))).length = l.length := by
  induction l with
  | nil => rfl
  | cons a rest ih =>
      by_cases h : p a = true <;> simp [List.filter_cons, h] <;> omega

lemma bondLinks_new (sel clicked f : String) (k : ℤ) :
    bondLinks sel clicked ⟨f, sel, clicked, k⟩ = true := by
  simp [bondLinks]

lemma addOrCycleBond_of_no_bond {m : Molecule} {sel clicked f : String}
    (h : ∀ bd ∈ m.bonds, bondLinks sel clicked bd = false) :
    addOrCycleBond m sel clicked f
      = { m with bonds := m.bonds ++ [⟨f, sel, clicked, 1⟩] } := by
  unfold addOrCycleBond
  have hany : m.bonds.any (bondLinks sel clicked) = false := by
    rw [List.any_eq_false]
    intro bd hbd
    simp [h bd hbd]
  simp [hany]

lemma cycleFirst_append {sel clicked : String} {l : List BondData} {bd : BondData}
    (h : ∀ x ∈ l, bondLinks sel clicked x = false)
    (hbd : bondLinks sel clicked bd = true) :
    cycleFirst sel clicked (l ++ [bd]) = l ++ [cycleBond bd] := by
  induction l with
  | nil => simp [cycleFirst, hbd]
  | cons a rest ih =>
      have ha := h a (List.mem_cons_self a rest)
      simp only [List.cons_append, cycleFirst, ha, if_false, Bool.false_eq_true]
      exact congrArg (List.cons a) (ih (fun x hx => h x (List.mem_cons_of_mem a hx)))

lemma addOrCycleBond_cycle {m : Molecule} {sel clicked f : String}
    {l : List BondData} {bd : BondData}
    (hb : m.bonds = l ++ [bd])
    (h : ∀ x ∈ l, bondLinks sel clicked x = false)
    (hbd : bondLinks sel clicked bd = true) :
    addOrCycleBond m sel clicked f = { m with bonds := l ++ [cycleBond bd] } := by
  unfold addOrCycleBond
  rw [hb]
  have hany : (l ++ [bd]).any (bondLinks sel clicked) = true := by
    rw [List.any_eq_true]
    exact ⟨bd, by simp, hbd⟩
  simp only [hany, if_true]
  rw [cycleFirst_append h hbd]

lemma filter_append_single {p : BondData → Bool} {l : List BondData} {bd : BondData}
    (h : ∀ x ∈ l, p x = false) (hbd : p bd = true) :
    (l ++ [bd]).filter p = [bd] := by
  rw [List.filter_append]
  have hl : l.filter p = [] := by
    rw [List.filter_eq_nil_iff]
    intro x hx
    simp [h x hx]
  simp [hl, List.filter, hbd]

lemma cycleBond_one (f a b : String) : cycleBond ⟨f, a, b, 1⟩ = ⟨f, a, b, 2⟩ := by
  norm_num [cycleBond, cycleOrder]

lemma cycleBond_two (f a b : String) : cycleBond ⟨f, a, b, 2⟩ = ⟨f, a, b, 3⟩ := by
  norm_num [cycleBond, cycleOrder]

lemma cycleBond_three (f a b : String) : cycleBond ⟨f, a, b, 3⟩ = ⟨f, a, b, 1⟩ := by
  norm_num [cycleBond, cycleOrder]

lemma cycleFirst_map_id (sel clicked : String) :
    ∀ l : List BondData,
      (cycleFirst sel clicked l).map (fun b => b.id) = l.map (fun b => b.id) := by
  intro l
  induction l with
  | nil => rfl
  | cons b rest ih =>
      by_cases hl : bondLinks sel clicked b = true <;>
        simp [cycleFirst, hl, cycleBond, ih]

lemma mem_cycleFirst {sel clicked : String} {l : List BondData} {b : BondData}
    (h : b ∈ cycleFirst sel clicked l) :
    ∃ b0 ∈ l, b.id = b0.id ∧ b.sourceAtomId = b0.sourceAtomId ∧
      b.targetAtomId = b0.targetAtomId := by
  induction l with
  | nil => cases h
  | cons a rest ih =>
      by_cases hl : bondLinks sel clicked a = true
      · rw [cycleFirst, if_pos hl] at h
        rcases List.mem_cons.mp h with h1 | h2
        · refine ⟨a, List.mem_cons_self a rest, ?_, ?_, ?_⟩ <;>
            (subst h1; simp [cycleBond])
        · exact ⟨b, List.mem_cons_of_mem a h2, rfl, rfl, rfl⟩
      · rw [cycleFirst, if_neg hl] at h
        rcases List.mem_cons.mp h with h1 | h2
        · exact ⟨a, List.mem_cons_self a rest, by subst h1; exact ⟨rfl, rfl, rfl⟩⟩
        · obtain ⟨b0, hb0, hprops⟩ := ih h2
          exact ⟨b0, List.mem_cons_of_mem a hb0, hprops⟩

/-! ## Invariant preservation lemmas -/

lemma hasAtom_addAtom {m : Molecule} {el id2 : String} {x y : ℚ} {i : String}
    (h : hasAtom m i) : hasAtom (addAtom m el id2 x y) i := by
  obtain ⟨a, ha, hid⟩ := h
  exact ⟨a, List.mem_append_left _ ha, hid⟩

lemma wf_addAtom {m : Molecule} {el id2 : String} {x y : ℚ}
    (hw : Wf m) (hfresh : ∀ a ∈ m.atoms, a.id ≠ id2) :
    Wf (addAtom m el id2 x y) := by
  obtain ⟨hb, hna, hnb⟩ := hw
  refine ⟨?_, ?_, hnb⟩
  · intro b hbm
    have hm : b ∈ m.bonds := hbm
    exact ⟨hasAtom_addAtom (hb b hm).1, hasAtom_addAtom (hb b hm).2⟩
  · show ((m.atoms ++ [(⟨id2, el, x, y⟩ : AtomData)]).map (fun a => a.id)).Nodup
    rw [List.map_append]
    rw [List.nodup_append]
    refine ⟨hna, List.nodup_singleton _, ?_⟩
    intro i hi hj
    simp only [List.map_cons, List.map_nil, List.mem_singleton] at hj
    obtain ⟨a, ha, haid⟩ := List.mem_map.mp hi
    exact hfresh a ha (haid.trans hj)

lemma wf_handleAtomDelete {m : Molecule} {atomId : String} (hw : Wf m) :
    Wf (handleAtomDelete m atomId) := by
  obtain ⟨hb, hna, hnb⟩ := hw
  refine ⟨?_, ?_, ?_⟩
  · intro b hbm
    have hmem := List.mem_filter.mp hbm
    obtain ⟨hbm0, hcond⟩ := hmem
    rw [Bool.and_eq_true] at hcond
    have hsrc : b.sourceAtomId ≠ atomId := by simpa using hcond.1
    have htgt : b.targetAtomId ≠ atomId := by simpa using hcond.2
    obtain ⟨hs, ht⟩ := hb b hbm0
    constructor
    · obtain ⟨a, ham, haid⟩ := hs
      exact ⟨a, List.mem_filter.mpr ⟨ham, by simp [haid, hsrc]⟩, haid⟩
    · obtain ⟨a, ham, haid⟩ := ht
      exact ⟨a, List.mem_filter.mpr ⟨ham, by simp [haid, htgt]⟩, haid⟩
  · exact hna.sublist ((List.filter_sublist m.atoms).map _)
  · exact hnb.sublist ((List.filter_sublist m.bonds).map _)

lemma wf_handleBondDelete {m : Molecule} {bondId : String} (hw : Wf m) :
    Wf (handleBondDelete m bondId) := by
  obtain ⟨hb, hna, hnb⟩ := hw
  refine ⟨?_, hna, ?_⟩
  · intro b hbm
    exact hb b (List.mem_filter.mp hbm).1
  · exact hnb.sublist ((List.filter_sublist m.bonds).map _)

lemma wf_addOrCycleBond {m : Molecule} {sel clicked f : String}
    (hw : Wf m) (hsel : hasAtom m sel) (hclicked : hasAtom m clicked)
    (hfresh : ∀ bd ∈ m.bonds, bd.id ≠ f) :
    Wf (addOrCycleBond m sel clicked f) := by
  obtain ⟨hb, hna, hnb⟩ := hw
  unfold addOrCycleBond
  by_cases hany : m.bonds.any (bondLinks sel clicked) = true
  · rw [if_pos hany]
    refine ⟨?_, hna, ?_⟩
    · intro b hbm
      obtain ⟨b0, hb0, _, hsrc, htgt⟩ := mem_cycleFirst hbm
      have h0 := hb b0 hb0
      exact ⟨hsrc ▸ h0.1, htgt ▸ h0.2⟩
    · show ((cycleFirst sel clicked m.bonds).map (fun b => b.id)).Nodup
      rw [cycleFirst_map_id]
      exact hnb
  · rw [if_neg hany]
    refine ⟨?_, hna, ?_⟩
    · intro b hbm
      rcases List.mem_append.mp hbm with h1 | h2
      · exact hb b h1
      · have hbeq : b = (⟨f, sel, clicked, 1⟩ : BondData) := by simpa using h2
        subst hbeq
        exact ⟨hsel, hclicked⟩
    · show ((m.bonds ++ [(⟨f, sel, clicked, 1⟩ : BondData)]).map (fun b => b.id)).Nodup
      rw [List.map_append, List.nodup_append]
      refine ⟨hnb, List.nodup_singleton _, ?_⟩
      intro i hi hj
      simp only [List.map_cons, List.map_nil, List.mem_singleton] at hj
      obtain ⟨bd, hbd, hbid⟩ := List.mem_map.mp hi
      exact hfresh bd hbd (hbid.trans hj)

lemma wf_applyOp {s : BuilderState} {op : Op}
    (hw : Wf s.molecule) (hok : opOk s op = true) :
    Wf (applyOp s op).molecule := by
  cases op with
  | add el id x y =>
      have hfresh : ∀ a ∈ s.molecule.atoms, a.id ≠ id := by
        intro a ha
        have := List.all_eq_true.mp hok a ha
        simpa using this
      exact wf_addAtom hw hfresh
  | click b fresh =>
      show Wf (handleAtomClickBuild s b fresh).molecule
      unfold opOk at hok
      rw [Bool.and_eq_true] at hok
      obtain ⟨hclickB, hselOk⟩ := hok
      have hclicked : hasAtom s.molecule b := hasAtomB_iff.mp hclickB
      cases hsel : s.selectedAtomId with
      | none =>
          have hred : handleAtomClickBuild s b fresh
              = { s with selectedAtomId := some b } := by
            unfold handleAtomClickBuild
            rw [hsel]
          rw [hred]
          exact hw
      | some a =>
          rw [hsel] at hselOk
          have hselOk2 : (a == b ||
              (hasAtomB s.molecule a &&
                s.molecule.bonds.all (fun bd => bd.id != fresh))) = true := hselOk
          by_cases hab : a ≠ b
          · rw [Bool.or_eq_true] at hselOk2
            rcases hselOk2 with h1 | h2
            · exact absurd (by simpa using h1) hab
            · rw [Bool.and_eq_true] at h2
              have hselAtom : hasAtom s.molecule a := hasAtomB_iff.mp h2.1
              have hfresh : ∀ bd ∈ s.molecule.bonds, bd.id ≠ fresh := by
                intro bd hbd
                have := List.all_eq_true.mp h2.2 bd hbd
                simpa using this
              have hred : handleAtomClickBuild s b fresh
                  = { s with molecule := addOrCycleBond s.molecule a b fresh } := by
                unfold handleAtomClickBuild
                rw [hsel]
                simp [hab]
              rw [hred]
              exact wf_addOrCycleBond hw hselAtom hclicked hfresh
          · have hred : handleAtomClickBuild s b fresh
                = { s with selectedAtomId := none } := by
              unfold handleAtomClickBuild
              rw [hsel]
              simp [hab]
            rw [hred]
            exact hw
  | eraseAtom id => exact wf_handleAtomDelete hw
  | eraseBond id => exact wf_handleBondDelete hw

lemma wf_run : ∀ (ops : List Op) (s : BuilderState),
    validSeq s ops = true → Wf s.molecule → Wf (run s ops).molecule := by
  intro ops
  induction ops with
  | nil => intro s _ hw; exact hw
  | cons op rest ih =>
      intro s hv hw
      rw [validSeq, Bool.and_eq_true] at hv
      exact ih (applyOp s op) hv.2 (wf_applyOp hw hv.1)

/-! ## Step lemmas for the click scenarios -/

lemma handleAtomClickBuild_bond {s : BuilderState} {A B f : String}
    (hsel : s.selectedAtomId = some A) (hne : A ≠ B) :
    handleAtomClickBuild s B f
      = { s with molecule := addOrCycleBond s.molecule A B f } := by
  unfold handleAtomClickBuild
  rw [hsel]
  simp [hne]

lemma addOrCycle_once {m : Molecule} {A B f1 : String}
    (h0 : ∀ bd ∈ m.bonds, bondLinks A B bd = false) :
    addOrCycleBond m A B f1 = { m with bonds := m.bonds ++ [⟨f1, A, B, 1⟩] } :=
  addOrCycleBond_of_no_bond h0

lemma addOrCycle_twice {m : Molecule} {A B f1 f2 : String}
    (h0 : ∀ bd ∈ m.bonds, bondLinks A B bd = false) :
    addOrCycleBond (addOrCycleBond m A B f1) A B f2
      = { m with bonds := m.bonds ++ [⟨f1, A, B, 2⟩] } := by
  rw [addOrCycle_once h0]
  rw [addOrCycleBond_cycle rfl h0 (bondLinks_new A B f1 1)]
  rw [cycleBond_one]

lemma addOrCycle_thrice {m : Molecule} {A B f1 f2 f3 : String}
    (h0 : ∀ bd ∈ m.bonds, bondLinks A B bd = false) :
    addOrCycleBond (addOrCycleBond (addOrCycleBond m A B f1) A B f2) A B f3
      = { m with bonds := m.bonds ++ [⟨f1, A, B, 3⟩] } := by
  rw [addOrCycle_twice h0]
  rw [addOrCycleBond_cycle rfl h0 (bondLinks_new A B f1 2)]
  rw [cycleBond_two]

lemma addOrCycle_fourth {m : Molecule} {A B f1 f2 f3 f4 : String}
    (h0 : ∀ bd ∈ m.bonds, bondLinks A B bd = false) :
    addOrCycleBond (addOrCycleBond (addOrCycleBond (addOrCycleBond m A B f1)
        A B f2) A B f3) A B f4
      = { m with bonds := m.bonds ++ [⟨f1, A, B, 1⟩] } := by
  rw [addOrCycle_thrice h0]
  rw [addOrCycleBond_cycle rfl h0 (bondLinks_new A B f1 3)]
  rw [cycleBond_three]

lemma bondsBetween_append {m : Molecule} {A B : String} {bd : BondData}
    (h0 : ∀ x ∈ m.bonds, bondLinks A B x = false)
    (hbd : bondLinks A B bd = true) :
    bondsBetween { m with bonds := m.bonds ++ [bd] } A B = [bd] := by
  show (m.bonds ++ [bd]).filter (bondLinks A B) = [bd]
  exact filter_append_single h0 hbd

/-! ## Definitional unfoldings of sanitization -/

lemma sanitize_atoms_def (p : ProductGraph) (index : ℕ) (now : String) :
    (sanitizeProduct p index now).atoms
      = (p.atoms.filter (fun a => a.id != "" && a.element != "")).map
          (fun a => ⟨a.id, a.element, 0, 0⟩) := rfl

lemma sanitize_bonds_def (p : ProductGraph) (index : ℕ) (now : String) :
    (sanitizeProduct p index now).bonds
      = numberBonds index 0 (p.bonds.filter
          (fun b => memB b.source ((p.atoms.filter
              (fun a => a.id != "" && a.element != "")).map (fun a => a.id)) &&
            memB b.target ((p.atoms.filter
              (fun a => a.id != "" && a.element != "")).map (fun a => a.id)))) := rfl

/-! ## Claim theorems -/

/-- Claim C1, counterexample.  The trace `breakingOps` uses only the four
graph operations of the claim, every click and erase targets an atom present
at that moment, and all generated ids are distinct; yet the final molecule
has a bond whose source atom is absent, because erasing the pending bond
source does not clear the renderer selection and the next build-mode click
appends a bond from the stale selection. -/
theorem builder_invariant_counterexample :
    clicksPresent initState breakingOps = true ∧
      ¬ Wf (run initState breakingOps).molecule := by
  constructor
  · decide
  · decide

/-- Claim C1 (amended): for every sequence of graph operations from the empty
molecule in which generated atom and bond ids are fresh and every
bond-creating or cycling click happens while both the clicked atom and the
pending bond source atom are still present, the resulting molecule satisfies
the invariant: bond endpoints are present and atom ids and bond ids are
duplicate free. -/
theorem builder_invariant_preserved (ops : List Op)
    (hvalid : validSeq initState ops = true) :
    Wf (run initState ops).molecule :=
  wf_run ops initState hvalid (by decide)

/-- Witness for the amended claim C1 on a concrete valid trace. -/
theorem builder_invariant_preserved_witness :
    Wf (run initState goodOps).molecule :=
  builder_invariant_preserved goodOps (by decide)

/-- Claim C2: from a molecule with no bond between A and B, four applications
of the add-or-cycle operation leave exactly one bond between A and B after
each call, with orders 1, 2, 3, 1 in sequence. -/
theorem bond_cycling_sequence (m : Molecule) (A B f1 f2 f3 f4 : String)
    (hAB : A ≠ B)
    (h0 : ∀ bd ∈ m.bonds, bondLinks A B bd = false) :
    bondsBetween (addOrCycleBond m A B f1) A B = [⟨f1, A, B, 1⟩] ∧
      bondsBetween (addOrCycleBond (addOrCycleBond m A B f1) A B f2) A B
        = [⟨f1, A, B, 2⟩] ∧
      bondsBetween (addOrCycleBond (addOrCycleBond (addOrCycleBond m A B f1)
          A B f2) A B f3) A B = [⟨f1, A, B, 3⟩] ∧
      bondsBetween (addOrCycleBond (addOrCycleBond (addOrCycleBond
          (addOrCycleBond m A B f1) A B f2) A B f3) A B f4) A B
        = [⟨f1, A, B, 1⟩] := by
  refine ⟨?_, ?_, ?_, ?_⟩
  · rw [addOrCycle_once h0]
    exact bondsBetween_append h0 (bondLinks_new A B f1 1)
  · rw [addOrCycle_twice h0]
    exact bondsBetween_append h0 (bondLinks_new A B f1 2)
  · rw [addOrCycle_thrice h0]
    exact bondsBetween_append h0 (bondLinks_new A B f1 3)
  · rw [addOrCycle_fourth h0]
    exact bondsBetween_append h0 (bondLinks_new A B f1 1)

/-- Witness for claim C2 on the concrete bond-free atom pair. -/
theorem bond_cycling_sequence_witness :
    bondsBetween (addOrCycleBond twoAtomMolecule "x" "y" "b1") "x" "y"
        = [⟨"b1", "x", "y", 1⟩] ∧
      bondsBetween (addOrCycleBond (addOrCycleBond twoAtomMolecule "x" "y" "b1")
          "x" "y" "b2") "x" "y" = [⟨"b1", "x", "y", 2⟩] ∧
      bondsBetween (addOrCycleBond (addOrCycleBond (addOrCycleBond
          twoAtomMolecule "x" "y" "b1") "x" "y" "b2") "x" "y" "b3") "x" "y"
        = [⟨"b1", "x", "y", 3⟩] ∧
      bondsBetween (addOrCycleBond (addOrCycleBond (addOrCycleBond
          (addOrCycleBond twoAtomMolecule "x" "y" "b1") "x" "y" "b2")
          "x" "y" "b3") "x" "y" "b4") "x" "y" = [⟨"b1", "x", "y", 1⟩] :=
  bond_cycling_sequence twoAtomMolecule "x" "y" "b1" "b2" "b3" "b4"
    (by decide) (by decide)

/-- Claim C4: a build-mode click on B while A is the pending bond source and
no bond exists between them creates the order-1 bond and keeps A selected, so
the immediately following click on B cycles the same bond to order 2 with A
still selected. -/
theorem pending_source_retained (s : BuilderState) (A B f1 f2 : String)
    (hsel : s.selectedAtomId = some A) (hne : A ≠ B)
    (h0 : ∀ bd ∈ s.molecule.bonds, bondLinks A B bd = false) :
    (handleAtomClickBuild s B f1).selectedAtomId = some A ∧
      (handleAtomClickBuild s B f1).molecule = addOrCycleBond s.molecule A B f1 ∧
      bondsBetween (handleAtomClickBuild s B f1).molecule A B = [⟨f1, A, B, 1⟩] ∧
      (handleAtomClickBuild (handleAtomClickBuild s B f1) B f2).selectedAtomId
        = some A ∧
      bondsBetween
          (handleAtomClickBuild (handleAtomClickBuild s B f1) B f2).molecule A B
        = [⟨f1, A, B, 2⟩] := by
  have hred1 : handleAtomClickBuild s B f1
      = { s with molecule := addOrCycleBond s.molecule A B f1 } :=
    handleAtomClickBuild_bond hsel hne
  have hred2 : handleAtomClickBuild
        { s with molecule := addOrCycleBond s.molecule A B f1 } B f2
      = { { s with molecule := addOrCycleBond s.molecule A B f1 } with
            molecule := addOrCycleBond (addOrCycleBond s.molecule A B f1) A B f2 } :=
    handleAtomClickBuild_bond hsel hne
  refine ⟨?_, ?_, ?_, ?_, ?_⟩
  · rw [hred1]
    exact hsel
  · rw [hred1]
  · rw [hred1]
    show bondsBetween (addOrCycleBond s.molecule A B f1) A B = [⟨f1, A, B, 1⟩]
    rw [addOrCycle_once h0]
    exact bondsBetween_append h0 (bondLinks_new A B f1 1)
  · rw [hred1, hred2]
    exact hsel
  · rw [hred1, hred2]
    show bondsBetween
        (addOrCycleBond (addOrCycleBond s.molecule A B f1) A B f2) A B
      = [⟨f1, A, B, 2⟩]
    rw [addOrCycle_twice h0]
    exact bondsBetween_append h0 (bondLinks_new A B f1 2)

/-- Witness for claim C4 on the concrete pending-source state. -/
theorem pending_source_retained_witness :
    (handleAtomClickBuild pairState "y" "b1").selectedAtomId = some "x" ∧
      (handleAtomClickBuild pairState "y" "b1").molecule
        = addOrCycleBond pairState.molecule "x" "y" "b1" ∧
      bondsBetween (handleAtomClickBuild pairState "y" "b1").molecule "x" "y"
        = [⟨"b1", "x", "y", 1⟩] ∧
      (handleAtomClickBuild (handleAtomClickBuild pairState "y" "b1") "y"
          "b2").selectedAtomId = some "x" ∧
      bondsBetween (handleAtomClickBuild (handleAtomClickBuild pairState "y"
          "b1") "y" "b2").molecule "x" "y" = [⟨"b1", "x", "y", 2⟩] :=
  pending_source_retained pairState "x" "y" "b1" "b2" (by decide) (by decide)
    (by decide)

/-- Claim C3, counterexample.  `badProduct` carries an unknown element symbol,
a duplicated atom id, and a self-loop bond of order 7; sanitization retains
all of them, so every clause of the claimed §3 invariant package fails on the
sanitized molecule. -/
theorem sanitize_invariants_counterexample :
    ¬ (∀ a ∈ badSanitized.atoms, a.element ∈ knownElements) ∧
      ¬ (∀ b ∈ badSanitized.bonds, b.order = 1 ∨ b.order = 2 ∨ b.order = 3) ∧
      ¬ (badSanitized.atoms.map (fun a => a.id)).Nodup ∧
      ¬ (∀ b ∈ badSanitized.bonds, b.sourceAtomId ≠ b.targetAtomId) := by
  refine ⟨?_, ?_, ?_, ?_⟩ <;> decide

/-- Claim C3 (amended): sanitization guarantees exactly what the filters
check — every retained atom has a non-empty id and a non-empty element
string, every retained bond has both endpoints among the retained atom ids,
and each retained bond keeps its source order with a missing or zero order
coerced to 1.  It does not validate element symbols against the known list,
does not deduplicate atom ids, does not restrict orders to {1,2,3}, and does
not drop self-loops. -/
theorem sanitize_invariants (p : ProductGraph) (index : ℕ) (now : String) :
    (∀ a ∈ (sanitizeProduct p index now).atoms, a.id ≠ "" ∧ a.element ≠ "") ∧
      (∀ b ∈ (sanitizeProduct p index now).bonds,
        b.sourceAtomId ∈ (sanitizeProduct p index now).atoms.map (fun a => a.id) ∧
          b.targetAtomId ∈ (sanitizeProduct p index now).atoms.map (fun a => a.id)) ∧
      (∀ b ∈ (sanitizeProduct p index now).bonds,
        ∃ gb ∈ p.bonds, b.sourceAtomId = gb.source ∧ b.targetAtomId = gb.target ∧
          b.order = coerceOrder gb.order) := by
  refine ⟨?_, sanitize_bonds_closed p index now, ?_⟩
  · intro a ha
    rw [sanitize_atoms_def] at ha
    obtain ⟨a0, ha0, hae⟩ := List.mem_map.mp ha
    have hcond := (List.mem_filter.mp ha0).2
    rw [Bool.and_eq_true] at hcond
    have h1 : a0.id ≠ "" := by simpa using hcond.1
    have h2 : a0.element ≠ "" := by simpa using hcond.2
    subst hae
    exact ⟨h1, h2⟩
  · intro b hb
    rw [sanitize_bonds_def] at hb
    obtain ⟨gb, hgb, hprops⟩ := numberBonds_mem index 0 _ b hb
    exact ⟨gb, (List.mem_filter.mp hgb).1, hprops⟩

/-- Claim C5: after sanitization every retained bond references retained atom
ids, and atom and bond counts never exceed those of the input product
graph. -/
theorem sanitize_soundness (p : ProductGraph) (index : ℕ) (now : String) :
    (∀ b ∈ (sanitizeProduct p index now).bonds,
        b.sourceAtomId ∈ (sanitizeProduct p index now).atoms.map (fun a => a.id) ∧
          b.targetAtomId ∈ (sanitizeProduct p index now).atoms.map (fun a => a.id)) ∧
      (sanitizeProduct p index now).atoms.length ≤ p.atoms.length ∧
      (sanitizeProduct p index now).bonds.length ≤ p.bonds.length := by
  refine ⟨sanitize_bonds_closed p index now, ?_, ?_⟩
  · rw [sanitize_atoms_def, List.length_map]
    exact List.length_filter_le _ _
  · rw [sanitize_bonds_def, numberBonds_length]
    exact List.length_filter_le _ _

/-- Claim C6, counterexample.  With a 40 by 40 canvas the clamp
`max(30, min(width - 30, x))` produces coordinate 30, which is outside the
claimed interval [30, width - 30] = [30, 10]; the claim fails for canvases
narrower than twice the margin. -/
theorem layout_bounded_counterexample :
    ¬ (∀ a ∈ (autoLayoutMolecule tinyMolecule 40 40
          (fun _ => 0) (fun _ => 0)).atoms,
        30 ≤ a.x ∧ a.x ≤ 40 - 30 ∧ 30 ≤ a.y ∧ a.y ≤ 40 - 30) := by
  intro hall
  have hatoms : (autoLayoutMolecule tinyMolecule 40 40
      (fun _ => 0) (fun _ => 0)).atoms = [⟨"a1", "H", 30, 30⟩] := by
    norm_num [autoLayoutMolecule, tinyMolecule, layoutAtoms, clamp,
      max_def, min_def]
  have h30 := hall ⟨"a1", "H", 30, 30⟩
    (by rw [hatoms]; exact List.mem_singleton_self _)
  have hle : (30 : ℚ) ≤ 40 - 30 := h30.2.1
  norm_num at hle

/-- Claim C6 (amended): for every non-empty molecule and canvas dimensions
with width and height at least 60 (twice the 30-pixel margin), every atom
coordinate returned by batch layout lies in
[30, width - 30] by [30, height - 30], whatever positions the force
simulation produced. -/
theorem layout_bounded (m : Molecule) (w h : ℚ) (sx sy : ℕ → ℚ)
    (hm : m.atoms ≠ []) (hw : (60 : ℚ) ≤ w) (hh : (60 : ℚ) ≤ h) :
    ∀ a ∈ (autoLayoutMolecule m w h sx sy).atoms,
      30 ≤ a.x ∧ a.x ≤ w - 30 ∧ 30 ≤ a.y ∧ a.y ≤ h - 30 := by
  unfold autoLayoutMolecule
  rw [if_neg (fun hc => hm (List.length_eq_zero.mp hc))]
  exact layoutAtoms_bounds hw hh sx sy 0 m.atoms

/-- Witness for the amended claim C6 on the standard 600 by 400 canvas,
instantiated at the single laid-out atom. -/
theorem layout_bounded_witness :
    30 ≤ (AtomData.mk "a1" "H" 30 30).x ∧
      (AtomData.mk "a1" "H" 30 30).x ≤ 600 - 30 ∧
      30 ≤ (AtomData.mk "a1" "H" 30 30).y ∧
      (AtomData.mk "a1" "H" 30 30).y ≤ 400 - 30 := by
  have hatoms : (autoLayoutMolecule tinyMolecule 600 400
      (fun _ => 0) (fun _ => 0)).atoms = [⟨"a1", "H", 30, 30⟩] := by
    norm_num [autoLayoutMolecule, tinyMolecule, layoutAtoms, clamp,
      max_def, min_def]
  exact layout_bounded tinyMolecule 600 400 (fun _ => 0) (fun _ => 0)
    (by decide) (by norm_num) (by norm_num) ⟨"a1", "H", 30, 30⟩
    (by rw [hatoms]; exact List.mem_singleton_self _)

/-- Claim C7: batch layout returns exactly the input bond list and the input
atom ids and elements in order, and a live-mode tick rebuilds only atom
coordinates while leaving the bond list of the previous state untouched. -/
theorem layout_topology_preserved (m : Molecule) (w h : ℚ) (sx sy : ℕ → ℚ)
    (prev : Molecule) (pa : List AtomData) (pos : ℕ → ℚ × ℚ) :
    (autoLayoutMolecule m w h sx sy).bonds = m.bonds ∧
      (autoLayoutMolecule m w h sx sy).atoms.map (fun a => a.id)
        = m.atoms.map (fun a => a.id) ∧
      (autoLayoutMolecule m w h sx sy).atoms.map (fun a => a.element)
        = m.atoms.map (fun a => a.element) ∧
      (liveTick prev pa pos).bonds = prev.bonds ∧
      (liveTick prev pa pos).atoms.map (fun a => a.id) = pa.map (fun a => a.id) ∧
      (liveTick prev pa pos).atoms.map (fun a => a.element)
        = pa.map (fun a => a.element) := by
  unfold autoLayoutMolecule liveTick
  by_cases hz : m.atoms.length = 0
  · rw [if_pos hz]
    exact ⟨rfl, rfl, rfl, rfl, tickAtoms_map_id pos 0 pa,
      tickAtoms_map_element pos 0 pa⟩
  · rw [if_neg hz]
    exact ⟨rfl, layoutAtoms_map_id w h sx sy 0 m.atoms,
      layoutAtoms_map_element w h sx sy 0 m.atoms, rfl,
      tickAtoms_map_id pos 0 pa, tickAtoms_map_element pos 0 pa⟩

/-- Claim C8: removing a present atom that participates in exactly N bonds
removes that atom and exactly those N bonds; every other atom and bond is
retained unchanged and in order (the results are the two filters of the
source). -/
theorem remove_atom_cascade (m : Molecule) (atomId : String) (N : ℕ)
    (hpres : hasAtom m atomId)
    (hN : N = (m.bonds.filter
        (fun b => b.sourceAtomId == atomId || b.targetAtomId == atomId)).length) :
    (∀ a ∈ (handleAtomDelete m atomId).atoms, a.id ≠ atomId) ∧
      (∀ b ∈ (handleAtomDelete m atomId).bonds,
        b.sourceAtomId ≠ atomId ∧ b.targetAtomId ≠ atomId) ∧
      (handleAtomDelete m atomId).atoms
        = m.atoms.filter (fun a => a.id != atomId) ∧
      (handleAtomDelete m atomId).bonds
        = m.bonds.filter
            (fun b => b.sourceAtomId != atomId && b.targetAtomId != atomId) ∧
      (handleAtomDelete m atomId).atoms.length + 1 ≤ m.atoms.length ∧
      (handleAtomDelete m atomId).bonds.length + N = m.bonds.length := by
  refine ⟨?_, ?_, rfl, rfl, ?_, ?_⟩
  · intro a ha
    have h := (List.mem_filter.mp ha).2
    simpa using h
  · intro b hb
    have h := (List.mem_filter.mp hb).2
    rw [Bool.and_eq_true] at h
    exact ⟨by simpa using h.1, by simpa using h.2⟩
  · have hsplit := length_filter_split (fun a : AtomData => a.id != atomId) m.atoms
    obtain ⟨a, ham, haid⟩ := hpres
    have hmem : a ∈ m.atoms.filter (fun x => !(x.id != atomId)) :=
      List.mem_filter.mpr ⟨ham, by simp [haid]⟩
    have hge : 1 ≤ (m.atoms.filter (fun x => !(x.id != atomId))).length :=
      List.length_pos.mpr (List.ne_nil_of_mem hmem)
    show (m.atoms.filter (fun a => a.id != atomId)).length + 1 ≤ m.atoms.length
    omega
  · have hsplit := length_filter_split
      (fun b : BondData => b.sourceAtomId != atomId && b.targetAtomId != atomId)
      m.bonds
    have hfun : m.bonds.filter (fun b =>
        !(b.sourceAtomId != atomId && b.targetAtomId != atomId))
        = m.bonds.filter
            (fun b => b.sourceAtomId == atomId || b.targetAtomId == atomId) := by
      apply List.filter_congr
      intro b _
      simp [bne, Bool.not_and, Bool.not_not]
    rw [hfun] at hsplit
    show (m.bonds.filter
        (fun b => b.sourceAtomId != atomId && b.targetAtomId != atomId)).length + N
      = m.bonds.length
    omega

/-- Witness for claim C8: erasing the middle atom of the chain removes it and
both of its bonds. -/
theorem remove_atom_cascade_witness :
    (∀ a ∈ (handleAtomDelete chainMolecule "B").atoms, a.id ≠ "B") ∧
      (∀ b ∈ (handleAtomDelete chainMolecule "B").bonds,
        b.sourceAtomId ≠ "B" ∧ b.targetAtomId ≠ "B") ∧
      (handleAtomDelete chainMolecule "B").atoms
        = chainMolecule.atoms.filter (fun a => a.id != "B") ∧
      (handleAtomDelete chainMolecule "B").bonds
        = chainMolecule.bonds.filter
            (fun b => b.sourceAtomId != "B" && b.targetAtomId != "B") ∧
      (handleAtomDelete chainMolecule "B").atoms.length + 1
        ≤ chainMolecule.atoms.length ∧
      (handleAtomDelete chainMolecule "B").bonds.length + 2
        = chainMolecule.bonds.length :=
  remove_atom_cascade chainMolecule "B" 2 (by decide) (by decide)

/-- Claim C9: identification returns the locally computed formula whenever
the collaborator call throws, returns no text, or returns a blank or
over-50-character name; otherwise it returns the trimmed collaborator
name. -/
theorem identify_fallback (m : Molecule) (r : CollabResult) :
    (r = CollabResult.failure → identifyMolecule m r = formulaOf m) ∧
      (r = CollabResult.success none → identifyMolecule m r = formulaOf m) ∧
      (∀ t : String, r = CollabResult.success (some t) →
        ((t.trim = "" ∨ 50 < t.trim.length) →
            identifyMolecule m r = formulaOf m) ∧
          (t.trim ≠ "" → t.trim.length ≤ 50 →
            identifyMolecule m r = t.trim)) := by
  refine ⟨?_, ?_, ?_⟩
  · rintro rfl
    rfl
  · rintro rfl
    rfl
  · rintro t rfl
    constructor
    · intro h
      show (if t.trim = "" ∨ 50 < t.trim.length then formulaOf m else t.trim)
        = formulaOf m
      rw [if_pos h]
    · intro h1 h2
      show (if t.trim = "" ∨ 50 < t.trim.length then formulaOf m else t.trim)
        = t.trim
      rw [if_neg]
      push_neg
      exact ⟨h1, by omega⟩

/-- Witness for claim C9: a failed collaborator call on water yields the
formula computed in atom insertion order, OH2. -/
theorem identify_fallback_witness :
    identifyMolecule waterMolecule CollabResult.failure = "OH2" := by
  have h := (identify_fallback waterMolecule CollabResult.failure).1 rfl
  rw [h]
  decide

/-- Claim C10: the `ELEMENT_COLORS` literal stops after fluorine, so the
lookup is undefined for the seven remaining palette elements and the
builder's `style.bg` dereference would fault for each of them; the claimed
totality over the 15-member enum is false. -/
theorem elementColors_incomplete :
    ELEMENT_COLORS ElementType.P = none ∧
      ELEMENT_COLORS ElementType.Mg = none ∧
      ELEMENT_COLORS ElementType.K = none ∧
      ELEMENT_COLORS ElementType.Ca = none ∧
      ELEMENT_COLORS ElementType.Fe = none ∧
      ELEMENT_COLORS ElementType.Br = none ∧
      ELEMENT_COLORS ElementType.I = none ∧
      ¬ (∀ el : ElementType, (ELEMENT_COLORS el).isSome = true) := by
  refine ⟨rfl, rfl, rfl, rfl, rfl, rfl, rfl, fun hall => ?_⟩
  have h := hall ElementType.P
  simp [ELEMENT_COLORS] at h

end ChemAssistant
